import Mathlib

/-!
Verification of the media-delivery core of the file-to-link server.

The definitions below are shallow embeddings of the Python source:
  * `src/web_server.py`   — `FileServer.get_file_info`, `_adaptive_stream_file`,
    `_handle_range_request_optimized`, `download_file`
  * `src/utils/crypto_utils.py` — `CryptoUtils.encrypt_id` / `decrypt_id`
  * `src/utils/media_utils.py`  — `MediaProcessor.generate_safe_filename`,
    `get_streaming_optimization_settings`

Python strings are embedded as `List Char`, byte strings as `List Nat`
(each element < 256), machine integers as `Int`/`Nat`, and fallible code
as `Option`-valued functions: an exception caught by the enclosing
`try/except` is modelled as `none`.
-/

/-! ## Range handler: parsing and validation (web_server.py lines 934-949) -/

/-- Response head produced by `_handle_range_request_optimized` before any body
byte is written.  `streamed` records whether the handler proceeds to the
streaming loop (`206` path) or returns immediately (`416` path). -/
structure RangeHead where
  status : Nat
  contentRange : Option String
  contentLength : Option String
  streamed : Bool
  deriving DecidableEq, Repr

/-- Line 936: `start = int(range_match[0]) if range_match[0] else 0`.
The component of the `Range` header before the dash, already split; `none`
models the empty string. -/
def parseRangeStart (s : Option Nat) : Int :=
  (s.map Int.ofNat).getD 0

/-- Line 937: `end = int(range_match[1]) if range_match[1] else file_info['file_size'] - 1`. -/
def parseRangeEnd (s : Option Nat) (fileSize : Int) : Int :=
  (s.map Int.ofNat).getD (fileSize - 1)

/-- Lines 940-949: validation of the parsed range against the file size and
the response head set on each branch. -/
def handleRangeValidate (start endv fileSize : Int) : RangeHead :=
  if start ≥ fileSize ∨ endv ≥ fileSize ∨ start > endv then
    { status := 416
      contentRange := some ("bytes */" ++ toString fileSize)
      contentLength := none
      streamed := false }
  else
    { status := 206
      contentRange := some ("bytes " ++ toString start ++ "-" ++ toString endv ++ "/" ++ toString fileSize)
      contentLength := some (toString (endv - start + 1))
      streamed := true }

/-- Lines 934-949 of `_handle_range_request_optimized`: parse the two
components of a `bytes=<start>-<end>` header (each `none` when empty) and
validate. -/
def handleRangeRequest (startPart endPart : Option Nat) (fileSize : Int) : RangeHead :=
  handleRangeValidate (parseRangeStart startPart) (parseRangeEnd endPart fileSize) fileSize

/-! ## Range handler: streaming loop (web_server.py lines 961-994)

The Media Source (`bot.stream_media`) yields the file from offset 0 as a
sequence of byte chunks; the loop discards, trims and forwards them.  The
loop state is `current_pos` (bytes of the producer consumed before the
current chunk) and `bytes_sent`; the returned list is the concatenation of
all `chunk_data` slices written to the client. -/

/-- Lines 967-992: the `async for chunk in self.bot.stream_media(...)` body.
`total` is `total_to_send = end - start + 1` (line 965). -/
def rangeLoop (start endPos total : Nat) :
    List (List Nat) → Nat → Nat → List Nat
  | [], _, _ => []
  | chunk :: rest, currentPos, bytesSent =>
    -- line 971: skip chunks entirely before the requested range
    if currentPos + chunk.length ≤ start then
      rangeLoop start endPos total rest (currentPos + chunk.length) bytesSent
    -- line 976: stop if we have passed the requested range
    else if endPos < currentPos then
      []
    else
      -- lines 980-981: trim the chunk to the requested range
      if start - currentPos < min chunk.length (endPos - currentPos + 1) then
        -- line 984: chunk_data = chunk[chunk_start:chunk_end_trim]
        if total ≤ bytesSent +
            ((chunk.drop (start - currentPos)).take
              (min chunk.length (endPos - currentPos + 1) - (start - currentPos))).length then
          (chunk.drop (start - currentPos)).take
            (min chunk.length (endPos - currentPos + 1) - (start - currentPos))
        else
          (chunk.drop (start - currentPos)).take
            (min chunk.length (endPos - currentPos + 1) - (start - currentPos)) ++
          rangeLoop start endPos total rest (currentPos + chunk.length)
            (bytesSent +
              ((chunk.drop (start - currentPos)).take
                (min chunk.length (endPos - currentPos + 1) - (start - currentPos))).length)
      else
        rangeLoop start endPos total rest (currentPos + chunk.length) bytesSent

/-- Lines 963-994: the body bytes written to the client for a validated range
request, given the chunk sequence yielded by the producer. -/
def rangeStreamBody (start endPos : Nat) (chunks : List (List Nat)) : List Nat :=
  rangeLoop start endPos (endPos - start + 1) chunks 0 0

/-! ## Metadata cache (web_server.py lines 40-73, `FileServer.get_file_info`) -/

/-- Python `str.split(sep)` for a single-character separator. -/
def splitOnChar (sep : Char) : List Char → List (List Char)
  | [] => [[]]
  | c :: rest =>
    match splitOnChar sep rest with
    | h :: t => if c = sep then [] :: h :: t else (c :: h) :: t
    | [] => [[c]]   -- unreachable: the split of a list is never empty

/-- Python `int(s)` restricted to the ASCII-decimal strings (optional leading
minus sign) that file identifiers are built from; `none` models `ValueError`. -/
def pyInt? (l : List Char) : Option Int :=
  match l with
  | '-' :: rest =>
    if rest ≠ [] ∧ rest.all (fun c => 47 < c.toNat ∧ c.toNat < 58) then
      some (-(rest.foldl (fun acc c => 10 * acc + (c.toNat - 48)) 0 : Nat))
    else none
  | _ =>
    if l ≠ [] ∧ l.all (fun c => 47 < c.toNat ∧ c.toNat < 58) then
      some ((l.foldl (fun acc c => 10 * acc + (c.toNat - 48)) 0 : Nat))
    else none

/-- Lines 51-54: `int(file_id.split('_')[0])`, `int(file_id.split('_')[1])`.
`none` models the `IndexError`/`ValueError` caught by the handler's
`except` clause (line 71). -/
def interpretFileId (fid : List Char) : Option (Int × Int) :=
  match (splitOnChar '_' fid).get? 0, (splitOnChar '_' fid).get? 1 with
  | some p0, some p1 =>
    match pyInt? p0, pyInt? p1 with
    | some a, some b => some (a, b)
    | _, _ => none
  | _, _ => none

/-- Line 64: `self.file_cache[file_id] = {...}` — Python dict assignment on the
association-list embedding of the cache. -/
def cacheInsert {α : Type} (cache : List (List Char × α × Nat))
    (fid : List Char) (v : α × Nat) : List (List Char × α × Nat) :=
  (fid, v) :: cache.filter (fun p => !(p.1 == fid))

/-- Lines 40-73, `FileServer.get_file_info`.  `resolve chat msg` models
`bot.get_messages` followed by the media check and metadata extraction
(lines 51-61): `none` covers both the unresolvable and the
unsupported-media cases.  `now` is `time.time()` in whole seconds.  The
result is `(returned value, new cache, number of upstream resolve calls)`. -/
def get_file_info {α : Type} (resolve : Int → Int → Option α)
    (cache : List (List Char × α × Nat)) (now : Nat) (fid : List Char) :
    Option α × List (List Char × α × Nat) × Nat :=
  match cache.lookup fid with
  | some (d, cachedAt) =>
    -- line 47: cache valid for 10 minutes
    if now - cachedAt < 600 then (some d, cache, 0)
    else
      match interpretFileId fid with
      | none => (none, cache, 0)
      | some (c, m) =>
        match resolve c m with
        | none => (none, cache, 1)
        | some d => (some d, cacheInsert cache fid (d, now), 1)
  | none =>
    match interpretFileId fid with
    | none => (none, cache, 0)
    | some (c, m) =>
      match resolve c m with
      | none => (none, cache, 1)
      | some d => (some d, cacheInsert cache fid (d, now), 1)

/-! ## Adaptive streamer (web_server.py lines 892-928, `_adaptive_stream_file`)
and its chunk-size schedule (media_utils.py lines 395-442,
`get_streaming_optimization_settings`). -/

/-- The streaming settings dict computed by
`get_streaming_optimization_settings`. -/
structure StreamSettings where
  initialChunkSize : Nat
  maxChunkSize : Nat
  bufferMultiplier : Nat
  preloadStrategy : String
  bufferTarget : Nat
  deriving DecidableEq, Repr

/-- Python `filename_lower.endswith(ext)` on the `List Char` embedding. -/
def endsWithExt (filenameLower ext : List Char) : Bool :=
  ext.isSuffixOf filenameLower

/-- media_utils.py lines 395-442, `get_streaming_optimization_settings`:
pure function of `(filename, file_size)` selecting chunk-size parameters. -/
def get_streaming_optimization_settings (filename : List Char) (fileSize : Nat) :
    StreamSettings :=
  let fl := filename.map Char.toLower
  let isVideo := [".mp4", ".mkv", ".avi", ".mov", ".webm", ".flv", ".wmv", ".m4v"].any
    (fun ext => endsWithExt fl ext.data)
  let isAudio := [".mp3", ".wav", ".flac", ".aac", ".ogg", ".m4a", ".wma"].any
    (fun ext => endsWithExt fl ext.data)
  -- lines 402-408: defaults
  let s : StreamSettings :=
    { initialChunkSize := 65536, maxChunkSize := 1048576, bufferMultiplier := 4
      preloadStrategy := "metadata", bufferTarget := 2 * 1024 * 1024 }
  -- lines 411-423: video overrides, with high-complexity container special case
  let s :=
    if isVideo then
      let s := { s with initialChunkSize := 32768, bufferMultiplier := 8
                        preloadStrategy := "auto", bufferTarget := 4 * 1024 * 1024 }
      if endsWithExt fl ".mkv".data ∨ endsWithExt fl ".avi".data ∨ endsWithExt fl ".mov".data then
        { s with initialChunkSize := 16384, bufferTarget := 6 * 1024 * 1024 }
      else s
    -- lines 426-433: audio overrides
    else if isAudio then
      { s with initialChunkSize := 16384, bufferMultiplier := 6
               preloadStrategy := "auto", bufferTarget := 1 * 1024 * 1024 }
    else s
  -- lines 436-440: file-size adjustments
  if fileSize < 10 * 1024 * 1024 then
    { s with bufferTarget := min s.bufferTarget (512 * 1024)
             initialChunkSize := min s.initialChunkSize 8192 }
  else if fileSize > 500 * 1024 * 1024 then
    { s with bufferTarget := max s.bufferTarget (8 * 1024 * 1024) }
  else s

/-- Lines 902-915 of `_adaptive_stream_file`: evolution of
`current_chunk_size` over the chunks written to the client.  `chunkLens` are
the byte counts of the chunks the producer yields; `maxChunk` is
`min(stream_settings['max_chunk_size'], Config.MAX_CHUNK_SIZE)` (line 898);
`bufferSent` is the cumulative `buffer_sent` counter (never reset).  The
result lists the value of `current_chunk_size` after each chunk is
processed. -/
def adaptiveChunkTrace (mult target maxChunk : Nat) :
    List Nat → Nat → Nat → List Nat
  | [], _, _ => []
  | len :: rest, cur, bufferSent =>
    -- line 910: scale up only after the initial buffer target is reached
    if target ≤ bufferSent + len ∧ cur < maxChunk then
      min (cur * mult) maxChunk ::
        adaptiveChunkTrace mult target maxChunk rest
          (min (cur * mult) maxChunk) (bufferSent + len)
    else
      cur :: adaptiveChunkTrace mult target maxChunk rest cur (bufferSent + len)

/-- Lines 895-915: the full `current_chunk_size` trace of one `200` response,
starting from `stream_settings['initial_chunk_size']`. -/
def adaptive_stream_file (settings : StreamSettings) (configMaxChunk : Nat)
    (chunkLens : List Nat) : List Nat :=
  adaptiveChunkTrace settings.bufferMultiplier settings.bufferTarget
    (min settings.maxChunkSize configMaxChunk) chunkLens settings.initialChunkSize 0

/-! ## Safe filenames (media_utils.py lines 126-144, `generate_safe_filename`) -/

/-- The character whitelist of line 130. -/
def safeChars : List Char :=
  "abcdefghijklmnopqrstuvwxyzABCDEFGHIJKLMNOPQRSTUVWXYZ0123456789-_.() ".data

/-- Python `s.replace(a+a, a)` for a single character `a` (one pass,
non-overlapping, left to right). -/
def replacePairOnce (a : Char) : List Char → List Char
  | [] => []
  | [c] => [c]
  | c :: d :: rest =>
    if c = a ∧ d = a then c :: replacePairOnce a rest
    else c :: replacePairOnce a (d :: rest)

/-- Python `(a+a) in s`: some two consecutive characters both equal `a`. -/
def hasDoubled (a : Char) : List Char → Bool
  | c :: d :: rest => (c = a ∧ d = a : Bool) || hasDoubled a (d :: rest)
  | _ => false

/-- Lines 134-137: `while (a+a) in s: s = s.replace(a+a, a)`, embedded with
explicit fuel; each iteration strictly shrinks the string, so `l.length`
iterations always suffice. -/
def collapseRunsFuel (a : Char) : Nat → List Char → List Char
  | 0, l => l
  | fuel + 1, l =>
    if hasDoubled a l then collapseRunsFuel a fuel (replacePairOnce a l) else l

/-- The while-loop of lines 134-137 with its sufficient fuel. -/
def collapseRuns (a : Char) (l : List Char) : List Char :=
  collapseRunsFuel a l.length l

/-- Python `s.strip('_. ')` (line 140). -/
def stripSet : List Char := ['_', '.', ' ']

/-- Python `s.strip(chars)`: drop the characters of `stripSet` from both
ends. -/
def pyStrip (l : List Char) : List Char :=
  ((l.dropWhile (fun c => c ∈ stripSet)).reverse.dropWhile (fun c => c ∈ stripSet)).reverse

/-- media_utils.py lines 126-144, `generate_safe_filename`. -/
def generate_safe_filename (filename : List Char) : List Char :=
  -- line 131: replace unsafe characters by '_'
  let safe := filename.map (fun c => if c ∈ safeChars then c else '_')
  -- lines 134-135: collapse consecutive underscores
  let safe := collapseRuns '_' safe
  -- lines 136-137: collapse consecutive spaces
  let safe := collapseRuns ' ' safe
  -- line 140: strip '_', '.', ' ' from both ends
  let safe := pyStrip safe
  -- lines 141-142: never return an empty name
  if safe = [] then "unnamed_file".data else safe

/-! ## Download handler (web_server.py lines 131-161, `download_file`) -/

/-- The response head set by `download_file` (lines 157-161). -/
structure DownloadHead where
  status : Nat
  contentType : String
  contentLength : String
  contentDisposition : String
  cacheControl : String
  deriving DecidableEq, Repr

/-- Lines 142-161 of `download_file` for a resolved file: the size guard of
line 142 (`HTTPBadRequest`, modelled as `none`) and the headers of the
download response.  `fileName` is the URL filename after `unquote`
(line 153); a fresh `StreamResponse` has status 200 and the handler never
changes it on this path. -/
def download_file (fileSize maxFileSize : Nat) (fileName : List Char) :
    Option DownloadHead :=
  if maxFileSize < fileSize then none
  else
    some
      { status := 200
        contentType := "application/octet-stream"
        contentLength := toString fileSize
        contentDisposition :=
          "attachment; filename=\"" ++ String.mk (generate_safe_filename fileName) ++ "\""
        cacheControl := "no-cache" }

/-! ## Identifier codec (crypto_utils.py, `CryptoUtils`)

`_get_key_bytes` derives the key as `sha256(Config.SECRET_KEY).digest()`:
a fixed byte string of length 32 with entries < 256.  The hash itself is
opaque here, so the definitions are parameterised by that `key`. -/

/-- XOR of a byte list with the repeating key starting at key offset `i`
(crypto_utils.py lines 32-34 and 68-70). -/
def xorBytesFrom (key : List Nat) (i : Nat) : List Nat → List Nat
  | [] => []
  | b :: rest => (b ^^^ key.getD (i % key.length) 0) :: xorBytesFrom key (i + 1) rest

/-- `xor_bytes[i] = data[i] ^ key[i % len(key)]`. -/
def xorBytes (data key : List Nat) : List Nat :=
  xorBytesFrom key 0 data

/-- The URL-safe base64 alphabet used by `base64.urlsafe_b64encode` /
`urlsafe_b64decode`. -/
def b64Alphabet : List Char :=
  "ABCDEFGHIJKLMNOPQRSTUVWXYZabcdefghijklmnopqrstuvwxyz0123456789-_".data

/-- Value 0-63 to alphabet character. -/
def sextetToChar (v : Nat) : Char :=
  b64Alphabet.getD v 'A'

/-- Alphabet character back to its 6-bit value; `none` for every character
outside the alphabet (including `'='`). -/
def charToSextet (c : Char) : Option Nat :=
  b64Alphabet.findIdx? (fun x => x == c)

/-- Bytes to 6-bit groups, 3 bytes to 4 sextets, with the standard short
final group (1 byte to 2 sextets, 2 bytes to 3 sextets). -/
def b64EncodeSextets : List Nat → List Nat
  | [] => []
  | [b1] => [b1 / 4, b1 % 4 * 16]
  | [b1, b2] => [b1 / 4, b1 % 4 * 16 + b2 / 16, b2 % 16 * 4]
  | b1 :: b2 :: b3 :: rest =>
    b1 / 4 :: (b1 % 4 * 16 + b2 / 16) :: (b2 % 16 * 4 + b3 / 64) :: b3 % 64 ::
      b64EncodeSextets rest

/-- Number of `'='` padding characters appended by `base64.urlsafe_b64encode`
for a payload of `n` bytes. -/
def b64PadLen (n : Nat) : Nat :=
  (3 - n % 3) % 3

/-- `base64.urlsafe_b64encode(bs).decode()`: sextet characters followed by
padding. -/
def b64encode (bs : List Nat) : List Char :=
  (b64EncodeSextets bs).map sextetToChar ++ List.replicate (b64PadLen bs.length) '='

/-- 6-bit groups back to bytes; a trailing group of a single sextet is the
`binascii.Error` case (`none`). -/
def b64DecodeBytes : List Nat → Option (List Nat)
  | [] => some []
  | [_] => none
  | [s1, s2] => some [s1 * 4 + s2 / 16]
  | [s1, s2, s3] => some [s1 * 4 + s2 / 16, s2 % 16 * 16 + s3 / 4]
  | s1 :: s2 :: s3 :: s4 :: rest =>
    (b64DecodeBytes rest).map
      (fun bs => (s1 * 4 + s2 / 16) :: (s2 % 16 * 16 + s3 / 4) :: (s3 % 4 * 64 + s4) :: bs)

/-- `base64.urlsafe_b64decode`: characters outside the alphabet (the padding
`'='` among them) are discarded, then the 6-bit groups are reassembled into
bytes. -/
def b64decode (s : List Char) : Option (List Nat) :=
  b64DecodeBytes (s.filterMap charToSextet)

/-- Python `s.rstrip(c)` for a single character. -/
def pyRstrip (c : Char) (l : List Char) : List Char :=
  ((l.reverse).dropWhile (fun x => x = c)).reverse

/-- Python `bytes.decode()` (UTF-8) restricted to the ASCII subset that file
identifiers (digits, `'-'`, `'_'`) live in; a byte ≥ 128 is conservatively
mapped to the `UnicodeDecodeError` case. -/
def asciiDecode? (bs : List Nat) : Option (List Char) :=
  if bs.all (fun b => b < 128) then some (bs.map Char.ofNat) else none

/-- crypto_utils.py lines 19-44, `CryptoUtils.encrypt_id`: UTF-8 encode, XOR
with the repeating key, prepend the version byte `0x01`, base64url-encode
and strip the `'='` padding. -/
def encrypt_id (key : List Nat) (plainId : List Char) : List Char :=
  pyRstrip '=' (b64encode (1 :: xorBytes (plainId.map Char.toNat) key))

/-- crypto_utils.py lines 46-76, `CryptoUtils.decrypt_id`: restore base64
padding, decode, check length and the version byte, XOR back, UTF-8
decode.  Every caught exception is `none`. -/
def decrypt_id (key : List Nat) (encryptedId : List Char) : Option (List Char) :=
  -- lines 53-58: pad base64 if needed, then decode
  match b64decode
      (if encryptedId.length % 4 = 0 then encryptedId
       else encryptedId ++ List.replicate (4 - encryptedId.length % 4) '=') with
  | none => none
  | some decodedBytes =>
    -- line 61: check length and magic byte
    if decodedBytes.length < 2 ∨ decodedBytes.getD 0 0 ≠ 1 then none
    else
      -- lines 64-72: XOR decryption and UTF-8 decode
      asciiDecode? (xorBytes (decodedBytes.drop 1) key)

/-- An ASCII decimal integer literal (optional leading minus), the components
of a legacy raw `"containerId_itemId"` identifier. -/
def isIntString : List Char → Bool
  | [] => false
  | c :: rest =>
    if c = '-' then (rest ≠ [] : Bool) && rest.all (fun x => 47 < x.toNat ∧ x.toNat < 58)
    else (c :: rest).all (fun x => 47 < x.toNat ∧ x.toNat < 58)

/-- A valid `FileReference` in its plain string form
`"containerId_itemId"`. -/
def LegacyIdForm (s : List Char) : Prop :=
  ∃ a b, s = a ++ '_' :: b ∧ isIntString a = true ∧ isIntString b = true

/-!
# Theorems

Helper lemmas come first, then one theorem per claim (with its witness or
counterexample).
-/

/-- Claim C2: a range parsed from a `bytes=<start>-<end>` header (empty start
meaning 0, empty end meaning `totalSize - 1`) is answered `416` with
`Content-Range: bytes */<totalSize>`, an empty body and no streaming when
`start ≥ totalSize` or `end ≥ totalSize` or `start > end`, and otherwise
`206` with `Content-Range: bytes <start>-<end>/<totalSize>` and
`Content-Length: <end - start + 1>`. -/
theorem c2_range_validation (startPart endPart : Option Nat) (totalSize : Nat) :
    ((parseRangeStart startPart ≥ (totalSize : Int) ∨
      parseRangeEnd endPart totalSize ≥ (totalSize : Int) ∨
      parseRangeStart startPart > parseRangeEnd endPart totalSize) →
      handleRangeRequest startPart endPart totalSize =
        { status := 416
          contentRange := some ("bytes */" ++ toString (totalSize : Int))
          contentLength := none
          streamed := false }) ∧
    (¬(parseRangeStart startPart ≥ (totalSize : Int) ∨
       parseRangeEnd endPart totalSize ≥ (totalSize : Int) ∨
       parseRangeStart startPart > parseRangeEnd endPart totalSize) →
      handleRangeRequest startPart endPart totalSize =
        { status := 206
          contentRange := some ("bytes " ++ toString (parseRangeStart startPart) ++ "-" ++
            toString (parseRangeEnd endPart totalSize) ++ "/" ++ toString (totalSize : Int))
          contentLength :=
            some (toString (parseRangeEnd endPart totalSize - parseRangeStart startPart + 1))
          streamed := true }) := by
  constructor
  · intro h
    simp only [handleRangeRequest, handleRangeValidate, if_pos h]
  · intro h
    simp only [handleRangeRequest, handleRangeValidate, if_neg h]

/-- Witness for C2: `bytes=1000-1005` against 1000 bytes is `416`;
`bytes=0-99` against 1000 bytes is `206` with the exact headers. -/
theorem c2_witness :
    ((parseRangeStart (some 1000) ≥ (1000 : Int) ∨
      parseRangeEnd (some 1005) 1000 ≥ (1000 : Int) ∨
      parseRangeStart (some 1000) > parseRangeEnd (some 1005) 1000) ∧
     handleRangeRequest (some 1000) (some 1005) 1000 =
       { status := 416, contentRange := some ("bytes */" ++ toString (1000 : Int))
         contentLength := none, streamed := false }) ∧
    (¬(parseRangeStart (some 0) ≥ (1000 : Int) ∨
       parseRangeEnd (some 99) 1000 ≥ (1000 : Int) ∨
       parseRangeStart (some 0) > parseRangeEnd (some 99) 1000) ∧
     handleRangeRequest (some 0) (some 99) 1000 =
       { status := 206
         contentRange := some ("bytes " ++ toString (parseRangeStart (some 0)) ++ "-" ++
           toString (parseRangeEnd (some 99) 1000) ++ "/" ++ toString (1000 : Int))
         contentLength :=
           some (toString (parseRangeEnd (some 99) 1000 - parseRangeStart (some 0) + 1))
         streamed := true }) :=
  ⟨⟨by decide, (c2_range_validation (some 1000) (some 1005) 1000).1 (by decide)⟩,
   ⟨by decide, (c2_range_validation (some 0) (some 99) 1000).2 (by decide)⟩⟩

/-- Claim C5: with a resolvable identifier, a second fetch within 10 minutes
of the first is served from the cache (no upstream call, same state), so the
two fetches make exactly one upstream resolve call; a fetch issued once the
clock exceeds 60 minutes after the entry was created makes a second upstream
call. -/
theorem c5_cache_freshness {α : Type} (resolve : Int → Int → Option α)
    (fid : List Char) (c m : Int) (d : α) (t₁ t₂ t₃ : Nat)
    (hint : interpretFileId fid = some (c, m)) (hres : resolve c m = some d)
    (h12 : t₁ ≤ t₂) (hwin : t₂ - t₁ < 600) (hexp : t₁ + 3600 < t₃) :
    (get_file_info resolve [] t₁ fid).2.2 = 1 ∧
    get_file_info resolve (get_file_info resolve [] t₁ fid).2.1 t₂ fid =
      (some d, (get_file_info resolve [] t₁ fid).2.1, 0) ∧
    (get_file_info resolve
      (get_file_info resolve (get_file_info resolve [] t₁ fid).2.1 t₂ fid).2.1 t₃ fid).2.2
      = 1 := by
  have hstale : ¬(t₃ - t₁ < 600) := by omega
  have h1 : get_file_info resolve [] t₁ fid = (some d, [(fid, (d, t₁))], 1) := by
    simp [get_file_info, hint, hres, cacheInsert]
  refine ⟨by rw [h1], ?_, ?_⟩
  · rw [h1]
    simp [get_file_info, List.lookup, hwin]
  · rw [h1]
    simp [get_file_info, List.lookup, hwin, hstale, hint, hres]

/-- Witness for C5 at a concrete resolver, identifier and clock values. -/
theorem c5_witness :
    interpretFileId "1_2".data = some (1, 2) ∧
    ((fun _ _ => some 0 : Int → Int → Option Nat) 1 2 = some 0) ∧
    (0 : Nat) ≤ 100 ∧ 100 - 0 < 600 ∧ 0 + 3600 < 4000 ∧
    ((get_file_info (fun _ _ => some 0) [] 0 "1_2".data).2.2 = 1 ∧
     get_file_info (fun _ _ => some 0)
       (get_file_info (fun _ _ => some (0 : Nat)) [] 0 "1_2".data).2.1 100 "1_2".data =
       (some 0, (get_file_info (fun _ _ => some 0) [] 0 "1_2".data).2.1, 0) ∧
     (get_file_info (fun _ _ => some 0)
       (get_file_info (fun _ _ => some 0)
         (get_file_info (fun _ _ => some 0) [] 0 "1_2".data).2.1 100 "1_2".data).2.1
       4000 "1_2".data).2.2 = 1) :=
  ⟨by decide, rfl, by decide, by decide, by decide,
   c5_cache_freshness (fun _ _ => some 0) "1_2".data 1 2 0 0 100 4000
     (by decide) rfl (by decide) (by decide) (by decide)⟩

/-- Looking a key up after filtering out a different key is unchanged. -/
theorem lookup_filter_other {α : Type} (st : List (List Char × α × Nat))
    (k fid : List Char) (hk : ¬k = fid) :
    (st.filter (fun p => !(p.1 == fid))).lookup k = st.lookup k := by
  induction st with
  | nil => rfl
  | cons p t ih =>
    obtain ⟨a, v⟩ := p
    by_cases ha : a = fid
    · subst ha
      have hka : (k == a) = false := beq_false_of_ne hk
      simp [List.filter, List.lookup, hka, ih]
    · have haf : (a == fid) = false := beq_false_of_ne ha
      by_cases hka : k = a
      · subst hka
        simp [List.filter, List.lookup, haf]
      · have h2 : (k == a) = false := beq_false_of_ne hka
        simp [List.filter, List.lookup, haf, h2, ih]

/-- A key present in the cache is still present after any `get_file_info`
call: the server defines no operation that deletes a cache entry. -/
theorem get_file_info_preserves_keys {α : Type} (resolve : Int → Int → Option α)
    (st : List (List Char × α × Nat)) (now : Nat) (fid k : List Char)
    (h : (st.lookup k).isSome) :
    (((get_file_info resolve st now fid).2.1).lookup k).isSome := by
  have hins : ∀ v : α × Nat, (((cacheInsert st fid v).lookup k).isSome : Prop) := by
    intro v
    by_cases hk : k = fid
    · subst hk
      simp [cacheInsert, List.lookup]
    · have hkf : (k == fid) = false := beq_false_of_ne hk
      simp [cacheInsert, List.lookup, hkf, lookup_filter_other st k fid hk, h]
  unfold get_file_info
  split
  · split
    · exact h
    · split
      · exact h
      · split
        · exact h
        · exact hins _
  · split
    · exact h
    · split
      · exact h
      · exact hins _

/-- Claim C6 counterexample: there is no background sweep.  A cache entry
created at time 0 for `"1_2"` is still present, with its original
timestamp, after the server has run for 10000 seconds (well past the
claimed 60-minute-plus-one-sweep bound) and handled a further request — the
only cache-mutating operation the code defines. -/
theorem c6_counterexample :
    ((get_file_info (fun _ _ => some (0 : Nat))
        (get_file_info (fun _ _ => some (0 : Nat)) [] 0 ['1', '_', '2']).2.1
        10000 ['3', '_', '4']).2.1).lookup ['1', '_', '2'] = some (0, 0) := by
  decide

/-- Witness for the amended C6 at a concrete cache and request. -/
theorem c6_witness :
    ((([(['a'], (0, 0))] : List (List Char × Nat × Nat)).lookup ['a']).isSome : Prop) ∧
    ((((get_file_info (fun _ _ => some 0) [(['a'], (0, 0))] 9999 ['b']).2.1).lookup
        ['a']).isSome : Prop) :=
  ⟨by decide,
   get_file_info_preserves_keys (fun _ _ => some 0) [(['a'], (0, 0))] 9999 ['b'] ['a']
     (by decide)⟩

/-- Claim C7 counterexample: the server never consults the Identifier Codec.
Under the all-zero key, the token `encrypt_id key "12_34"` decodes back to
`"12_34"`, which the raw legacy interpretation would resolve — yet
`get_file_info`, handed that token with an upstream that resolves every
reference, answers NotFound (`none`) without a single upstream call,
because it only ever applies the raw `split('_')` interpretation to the
token itself. -/
theorem c7_counterexample :
    decrypt_id (List.replicate 32 0) (encrypt_id (List.replicate 32 0) ['1', '2', '_', '3', '4']) =
      some ['1', '2', '_', '3', '4'] ∧
    interpretFileId ['1', '2', '_', '3', '4'] = some (12, 34) ∧
    get_file_info (fun _ _ => some (0 : Nat)) [] 0
      (encrypt_id (List.replicate 32 0) ['1', '2', '_', '3', '4']) = (none, [], 0) := by
  refine ⟨by decide, by decide, by decide⟩

/-- Claim C7 amended: the identifier is never decoded by the codec.  On a
cache miss the server applies only the legacy raw `"containerId_itemId"`
interpretation; when that fails the request is NotFound at once, with no
upstream call and no decode attempt (`decrypt_id` has no caller in the
server). -/
theorem c7_amended_raw_only {α : Type} (resolve : Int → Int → Option α)
    (st : List (List Char × α × Nat)) (now : Nat) (fid : List Char)
    (hmiss : st.lookup fid = none) (hraw : interpretFileId fid = none) :
    get_file_info resolve st now fid = (none, st, 0) := by
  unfold get_file_info
  rw [hmiss, hraw]

/-- Witness for the amended C7: an encoded token fails the raw interpretation
and is NotFound. -/
theorem c7_witness :
    (([] : List (List Char × Nat × Nat)).lookup
        (encrypt_id (List.replicate 32 0) ['1', '2', '_', '3', '4']) = none) ∧
    interpretFileId (encrypt_id (List.replicate 32 0) ['1', '2', '_', '3', '4']) = none ∧
    get_file_info (fun _ _ => some (0 : Nat)) [] 0
      (encrypt_id (List.replicate 32 0) ['1', '2', '_', '3', '4']) = (none, [], 0) :=
  ⟨by decide, by decide,
   c7_amended_raw_only (fun _ _ => some 0) [] 0
     (encrypt_id (List.replicate 32 0) ['1', '2', '_', '3', '4']) (by decide) (by decide)⟩

/-- The adaptive chunk-size trace from any reachable state is non-decreasing
and bounded by the maximum. -/
theorem adaptiveChunkTrace_mono (mult target maxChunk : Nat) (hmult : 1 ≤ mult) :
    ∀ (chunks : List Nat) (cur bufferSent : Nat), cur ≤ maxChunk →
      List.Chain' (· ≤ ·) (cur :: adaptiveChunkTrace mult target maxChunk chunks cur bufferSent) ∧
      ∀ x ∈ adaptiveChunkTrace mult target maxChunk chunks cur bufferSent, x ≤ maxChunk := by
  intro chunks
  induction chunks with
  | nil => intro cur bufferSent hcur; exact ⟨List.chain'_singleton cur, by simp [adaptiveChunkTrace]⟩
  | cons len rest ih =>
    intro cur bufferSent hcur
    rw [adaptiveChunkTrace]
    split
    · next hcond =>
      have hgrow : cur ≤ min (cur * mult) maxChunk :=
        le_min (Nat.le_mul_of_pos_right cur (by omega)) (Nat.le_of_lt hcond.2)
      have hle : min (cur * mult) maxChunk ≤ maxChunk := min_le_right _ _
      obtain ⟨hchain, hbound⟩ := ih (min (cur * mult) maxChunk) (bufferSent + len) hle
      refine ⟨List.chain'_cons.2 ⟨hgrow, hchain⟩, ?_⟩
      intro x hx
      rcases List.mem_cons.1 hx with h | h
      · exact h ▸ hle
      · exact hbound x h
    · obtain ⟨hchain, hbound⟩ := ih cur (bufferSent + len) hcur
      refine ⟨List.chain'_cons.2 ⟨le_refl cur, hchain⟩, ?_⟩
      intro x hx
      rcases List.mem_cons.1 hx with h | h
      · exact h ▸ hcur
      · exact hbound x h

/-- Claim C8: within one full-body response the adaptive streamer's chunk
size is non-decreasing from `initial_chunk_size` onward and never exceeds
`min(stream_settings['max_chunk_size'], Config.MAX_CHUNK_SIZE)`, for any
schedule with a positive multiplier whose initial size respects the
maximum (every schedule `get_streaming_optimization_settings` emits under
the default configuration does). -/
theorem c8_chunk_monotone (settings : StreamSettings) (configMaxChunk : Nat)
    (chunkLens : List Nat) (hmult : 1 ≤ settings.bufferMultiplier)
    (hinit : settings.initialChunkSize ≤ min settings.maxChunkSize configMaxChunk) :
    List.Chain' (· ≤ ·)
      (settings.initialChunkSize :: adaptive_stream_file settings configMaxChunk chunkLens) ∧
    ∀ x ∈ adaptive_stream_file settings configMaxChunk chunkLens,
      x ≤ min settings.maxChunkSize configMaxChunk :=
  adaptiveChunkTrace_mono settings.bufferMultiplier settings.bufferTarget
    (min settings.maxChunkSize configMaxChunk) hmult chunkLens
    settings.initialChunkSize 0 hinit

/-- Witness for C8: the schedule of a 100 MB `.mp4` under the default 1 MB
`Config.MAX_CHUNK_SIZE`, on a producer that reaches the buffer target. -/
theorem c8_witness :
    1 ≤ (get_streaming_optimization_settings "movie.mp4".data (100 * 1024 * 1024)).bufferMultiplier ∧
    (get_streaming_optimization_settings "movie.mp4".data
        (100 * 1024 * 1024)).initialChunkSize ≤
      min (get_streaming_optimization_settings "movie.mp4".data
        (100 * 1024 * 1024)).maxChunkSize 1048576 ∧
    (List.Chain' (· ≤ ·)
      ((get_streaming_optimization_settings "movie.mp4".data
          (100 * 1024 * 1024)).initialChunkSize ::
        adaptive_stream_file
          (get_streaming_optimization_settings "movie.mp4".data (100 * 1024 * 1024))
          1048576 [32768, 4194304, 32768]) ∧
     ∀ x ∈ adaptive_stream_file
        (get_streaming_optimization_settings "movie.mp4".data (100 * 1024 * 1024))
        1048576 [32768, 4194304, 32768],
        x ≤ min (get_streaming_optimization_settings "movie.mp4".data
          (100 * 1024 * 1024)).maxChunkSize 1048576) :=
  ⟨by decide, by decide,
   c8_chunk_monotone (get_streaming_optimization_settings "movie.mp4".data (100 * 1024 * 1024))
     1048576 [32768, 4194304, 32768] (by decide) (by decide)⟩

/-- Claim C9 counterexample: the download handler hardcodes
`Content-Type: application/octet-stream`; for `/download/{id}/report.pdf`
the response's `Content-Type` is not `application/pdf`. -/
theorem c9_counterexample :
    (download_file 5 4294967296 "report.pdf".data).map (fun h => h.contentType) =
      some "application/octet-stream" ∧
    "application/octet-stream" ≠ "application/pdf" := by
  refine ⟨by decide, by decide⟩

/-- Claim C9 amended: a download request for `report.pdf` on a resolvable,
not-too-large file returns status 200 with
`Content-Disposition: attachment; filename="report.pdf"` and
`Content-Type: application/octet-stream` — the download path always sends
the generic octet-stream type; the extension-derived MIME table
(`get_proper_mime_type`) is used only by the streaming path. -/
theorem c9_download_headers (fileSize maxFileSize : Nat) (h : fileSize ≤ maxFileSize) :
    download_file fileSize maxFileSize "report.pdf".data =
      some
        { status := 200
          contentType := "application/octet-stream"
          contentLength := toString fileSize
          contentDisposition := "attachment; filename=\"report.pdf\""
          cacheControl := "no-cache" } := by
  unfold download_file
  rw [if_neg (by omega)]
  have hsafe : String.mk (generate_safe_filename "report.pdf".data) = "report.pdf" := by decide
  rw [hsafe]
  rfl

/-- Witness for the amended C9. -/
theorem c9_witness :
    (5 : Nat) ≤ 4294967296 ∧
    download_file 5 4294967296 "report.pdf".data =
      some
        { status := 200
          contentType := "application/octet-stream"
          contentLength := toString (5 : Nat)
          contentDisposition := "attachment; filename=\"report.pdf\""
          cacheControl := "no-cache" } :=
  ⟨by decide, c9_download_headers 5 4294967296 (by decide)⟩

/-- `hasDoubled` is the infix test for the two-character run `[a, a]`. -/
theorem hasDoubled_iff_run (a : Char) :
    ∀ l : List Char, hasDoubled a l = true ↔ [a, a] <:+: l := by
  intro l
  induction l with
  | nil =>
    simp [hasDoubled]
  | cons c t ih =>
    cases t with
    | nil =>
      simp only [hasDoubled, Bool.false_eq_true, false_iff]
      intro h
      have := h.length_le
      simp at this
    | cons d rest =>
      rw [hasDoubled]
      constructor
      · intro h
        rcases Bool.or_eq_true_iff.1 h with h | h
        · have hc : c = a ∧ d = a := by simpa using h
          rw [hc.1, hc.2]
          exact ⟨[], rest, rfl⟩
        · exact (List.infix_cons_iff.2 (Or.inr ((ih.1 h))))
      · intro h
        rcases List.infix_cons_iff.1 h with h | h
        · rcases List.cons_prefix_cons.1 h with ⟨h1, h2⟩
          rcases List.cons_prefix_cons.1 h2 with ⟨h3, _⟩
          subst h1; subst h3
          simp
        · exact Bool.or_eq_true_iff.2 (Or.inr (ih.2 h))

/-- One replacement pass only deletes characters. -/
theorem mem_replacePairOnce (a : Char) :
    ∀ l : List Char, ∀ c ∈ replacePairOnce a l, c ∈ l
  | [] => by simp [replacePairOnce]
  | [x] => by simp [replacePairOnce]
  | x :: y :: rest => by
    intro c hc
    rw [replacePairOnce] at hc
    split at hc
    · rcases List.mem_cons.1 hc with h | h
      · exact h ▸ List.mem_cons_self x (y :: rest)
      · exact List.mem_cons_of_mem x
          (List.mem_cons_of_mem y (mem_replacePairOnce a rest c h))
    · rcases List.mem_cons.1 hc with h | h
      · exact h ▸ List.mem_cons_self x (y :: rest)
      · exact List.mem_cons_of_mem x (mem_replacePairOnce a (y :: rest) c h)

/-- One replacement pass never lengthens the string. -/
theorem length_replacePairOnce_le (a : Char) :
    ∀ l : List Char, (replacePairOnce a l).length ≤ l.length
  | [] => by simp [replacePairOnce]
  | [x] => by simp [replacePairOnce]
  | x :: y :: rest => by
    rw [replacePairOnce]
    split
    · have := length_replacePairOnce_le a rest
      simp only [List.length_cons]
      omega
    · have := length_replacePairOnce_le a (y :: rest)
      simp only [List.length_cons] at this ⊢
      omega

/-- When a doubled run is present, one replacement pass strictly shrinks
the string. -/
theorem length_replacePairOnce_lt (a : Char) :
    ∀ l : List Char, hasDoubled a l = true → (replacePairOnce a l).length < l.length
  | [] => by simp [hasDoubled]
  | [x] => by simp [hasDoubled]
  | x :: y :: rest => by
    intro h
    rw [replacePairOnce]
    split
    · have := length_replacePairOnce_le a rest
      simp only [List.length_cons]
      omega
    · next hne =>
      rw [hasDoubled] at h
      rcases Bool.or_eq_true_iff.1 h with h | h
      · exact absurd (by simpa using h) hne
      · have := length_replacePairOnce_lt a (y :: rest) h
        simp only [List.length_cons] at this ⊢
        omega

/-- The collapse loop's exit condition: its result has no doubled run. -/
theorem hasDoubled_collapseRunsFuel (a : Char) :
    ∀ (fuel : Nat) (l : List Char), l.length ≤ fuel →
      hasDoubled a (collapseRunsFuel a fuel l) = false := by
  intro fuel
  induction fuel with
  | zero =>
    intro l hl
    have : l = [] := List.length_eq_zero.1 (Nat.le_zero.1 hl)
    subst this
    simp [collapseRunsFuel, hasDoubled]
  | succ n ih =>
    intro l hl
    rw [collapseRunsFuel]
    split
    · next hd =>
      exact ih (replacePairOnce a l) (by have := length_replacePairOnce_lt a l hd; omega)
    · next hd => exact Bool.of_not_eq_true hd

/-- The collapse loop only deletes characters. -/
theorem mem_collapseRunsFuel (a : Char) :
    ∀ (fuel : Nat) (l : List Char), ∀ c ∈ collapseRunsFuel a fuel l, c ∈ l := by
  intro fuel
  induction fuel with
  | zero => intro l c hc; simpa [collapseRunsFuel] using hc
  | succ n ih =>
    intro l c hc
    rw [collapseRunsFuel] at hc
    split at hc
    · exact mem_replacePairOnce a l c (ih (replacePairOnce a l) c hc)
    · exact hc

/-- A nonempty string keeps its first character through one replacement
pass. -/
theorem head_replacePairOnce (a x : Char) :
    ∀ t : List Char, (replacePairOnce a (x :: t)).head? = some x
  | [] => by simp [replacePairOnce]
  | y :: rest => by
    rw [replacePairOnce]
    split <;> simp

/-- Head/tail characterisation of a doubled run. -/
theorem hasDoubled_cons (b x : Char) (m : List Char) :
    hasDoubled b (x :: m) = true ↔
      (x = b ∧ m.head? = some b) ∨ hasDoubled b m = true := by
  cases m with
  | nil => simp [hasDoubled]
  | cons y t =>
    rw [hasDoubled]
    simp [Bool.or_eq_true_iff, and_assoc]

/-- Collapsing runs of `a` cannot create a doubled run of a different
character `b`: any `b`-pair in the output was adjacent in the input. -/
theorem hasDoubled_replacePairOnce_of_ne (a b : Char) (hab : b ≠ a) :
    ∀ l : List Char, hasDoubled b (replacePairOnce a l) = true → hasDoubled b l = true
  | [] => by simp [replacePairOnce]
  | [x] => by simp [replacePairOnce]
  | x :: y :: rest => by
    intro h
    rw [replacePairOnce] at h
    split at h
    · next hxy =>
      rcases (hasDoubled_cons b x _).1 h with ⟨hxb, _⟩ | h2
      · exact absurd (hxb ▸ hxy.1) hab
      · have hr := hasDoubled_replacePairOnce_of_ne a b hab rest h2
        exact (hasDoubled_cons b x (y :: rest)).2
          (Or.inr ((hasDoubled_cons b y rest).2 (Or.inr hr)))
    · rcases (hasDoubled_cons b x _).1 h with ⟨hxb, hhd⟩ | h2
      · have hy : y = b := by
          have := head_replacePairOnce a y rest
          rw [this] at hhd
          exact Option.some_injective _ hhd
        exact (hasDoubled_cons b x (y :: rest)).2 (Or.inl ⟨hxb, by simp [hy]⟩)
      · have hr := hasDoubled_replacePairOnce_of_ne a b hab (y :: rest) h2
        exact (hasDoubled_cons b x (y :: rest)).2 (Or.inr hr)

/-- The collapse loop on `a` cannot create a doubled run of `b ≠ a`. -/
theorem hasDoubled_collapseRunsFuel_of_ne (a b : Char) (hab : b ≠ a) :
    ∀ (fuel : Nat) (l : List Char),
      hasDoubled b (collapseRunsFuel a fuel l) = true → hasDoubled b l = true := by
  intro fuel
  induction fuel with
  | zero => intro l h; simpa [collapseRunsFuel] using h
  | succ n ih =>
    intro l h
    rw [collapseRunsFuel] at h
    split at h
    · exact hasDoubled_replacePairOnce_of_ne a b hab l (ih (replacePairOnce a l) h)
    · exact h

/-- A doubled run in an infix is a doubled run in the whole string. -/
theorem hasDoubled_of_infix (a : Char) {l₁ l₂ : List Char} (h : l₁ <:+: l₂)
    (hd : hasDoubled a l₁ = true) : hasDoubled a l₂ = true :=
  (hasDoubled_iff_run a l₂).2 (((hasDoubled_iff_run a l₁).1 hd).trans h)

/-- The head surviving `dropWhile` fails the predicate. -/
theorem head?_dropWhile_false (p : Char → Bool) :
    ∀ (l : List Char) (c : Char), (l.dropWhile p).head? = some c → p c = false := by
  intro l
  induction l with
  | nil => intro c h; simp [List.dropWhile] at h
  | cons x t ih =>
    intro c h
    rw [List.dropWhile] at h
    split at h
    · exact ih c h
    · next hx =>
      simp only [List.head?_cons, Option.some_inj] at h
      subst h
      exact hx

/-- `strip` returns a prefix of the front-stripped string. -/
theorem pyStrip_prefix_dropWhile (l : List Char) :
    pyStrip l <+: l.dropWhile (fun c => c ∈ stripSet) := by
  apply List.reverse_suffix.1
  unfold pyStrip
  rw [List.reverse_reverse]
  exact List.dropWhile_suffix _

/-- `strip` returns an infix of its input. -/
theorem pyStrip_infix (l : List Char) : pyStrip l <:+: l :=
  (pyStrip_prefix_dropWhile l).isInfix.trans (List.dropWhile_suffix _).isInfix

/-- The stripped string does not begin with a character of the strip set. -/
theorem pyStrip_head (l : List Char) (c : Char) (h : (pyStrip l).head? = some c) :
    c ∉ stripSet := by
  obtain ⟨t, ht⟩ := pyStrip_prefix_dropWhile l
  have hh : (l.dropWhile (fun c => c ∈ stripSet)).head? = some c := by
    rw [← ht, List.head?_append, h]
    rfl
  have := head?_dropWhile_false (fun c => c ∈ stripSet) l c hh
  simpa using this

/-- The stripped string does not end with a character of the strip set. -/
theorem pyStrip_getLast (l : List Char) (c : Char) (h : (pyStrip l).getLast? = some c) :
    c ∉ stripSet := by
  unfold pyStrip at h
  rw [List.getLast?_reverse] at h
  have := head?_dropWhile_false (fun c => c ∈ stripSet) _ c h
  simpa using this

/-- Claim C10: for every input, `generate_safe_filename` returns a non-empty
string over the safe character set (letters, digits, `-`, `_`, `.`, `(`,
`)`, space) with no two consecutive underscores, no two consecutive spaces,
neither beginning nor ending with `_`, `.` or space (`unnamed_file` when
sanitisation leaves nothing) — and this sanitised name is exactly what
`download_file` places in the `Content-Disposition` header. -/
theorem c10_safe_filename (filename : List Char) :
    generate_safe_filename filename ≠ [] ∧
    (∀ c ∈ generate_safe_filename filename, c ∈ safeChars) ∧
    hasDoubled '_' (generate_safe_filename filename) = false ∧
    hasDoubled ' ' (generate_safe_filename filename) = false ∧
    (∀ c, (generate_safe_filename filename).head? = some c → c ∉ stripSet) ∧
    (∀ c, (generate_safe_filename filename).getLast? = some c → c ∉ stripSet) ∧
    (∀ (fileSize maxFileSize : Nat), ∀ h ∈ download_file fileSize maxFileSize filename,
      h.contentDisposition =
        "attachment; filename=\"" ++ String.mk (generate_safe_filename filename) ++ "\"") := by
  have hdisp : ∀ (fileSize maxFileSize : Nat),
      ∀ h ∈ download_file fileSize maxFileSize filename,
      h.contentDisposition =
        "attachment; filename=\"" ++ String.mk (generate_safe_filename filename) ++ "\"" := by
    intro fs mx h hmem
    unfold download_file at hmem
    split at hmem
    · simp at hmem
    · simp only [Option.mem_def, Option.some_inj] at hmem
      rw [← hmem]
  -- the sanitisation pipeline, stage by stage
  have h0 : ∀ c ∈ filename.map (fun c => if c ∈ safeChars then c else '_'), c ∈ safeChars := by
    intro c hc
    rcases List.mem_map.1 hc with ⟨x, _, hx⟩
    by_cases hxs : x ∈ safeChars
    · rw [if_pos hxs] at hx; exact hx ▸ hxs
    · rw [if_neg hxs] at hx; rw [← hx]; decide
  have h1mem : ∀ c ∈ collapseRuns '_' (filename.map (fun c => if c ∈ safeChars then c else '_')),
      c ∈ safeChars :=
    fun c hc => h0 c (mem_collapseRunsFuel '_' _ _ c hc)
  have h1nd : hasDoubled '_'
      (collapseRuns '_' (filename.map (fun c => if c ∈ safeChars then c else '_'))) = false :=
    hasDoubled_collapseRunsFuel '_' _ _ (le_refl _)
  have h2mem : ∀ c ∈ collapseRuns ' '
        (collapseRuns '_' (filename.map (fun c => if c ∈ safeChars then c else '_'))),
      c ∈ safeChars :=
    fun c hc => h1mem c (mem_collapseRunsFuel ' ' _ _ c hc)
  have h2nds : hasDoubled ' ' (collapseRuns ' '
      (collapseRuns '_' (filename.map (fun c => if c ∈ safeChars then c else '_')))) = false :=
    hasDoubled_collapseRunsFuel ' ' _ _ (le_refl _)
  have h2ndu : hasDoubled '_' (collapseRuns ' '
      (collapseRuns '_' (filename.map (fun c => if c ∈ safeChars then c else '_')))) = false := by
    by_contra hne
    have htrue : hasDoubled '_' (collapseRuns ' '
        (collapseRuns '_' (filename.map (fun c => if c ∈ safeChars then c else '_')))) = true := by
      revert hne
      cases hasDoubled '_' (collapseRuns ' '
        (collapseRuns '_' (filename.map (fun c => if c ∈ safeChars then c else '_')))) <;> simp
    have := hasDoubled_collapseRunsFuel_of_ne ' ' '_' (by decide) _ _ htrue
    rw [h1nd] at this
    exact Bool.false_ne_true this
  have hinf : pyStrip (collapseRuns ' '
      (collapseRuns '_' (filename.map (fun c => if c ∈ safeChars then c else '_')))) <:+:
      collapseRuns ' ' (collapseRuns '_' (filename.map (fun c => if c ∈ safeChars then c else '_'))) :=
    pyStrip_infix _
  have h3mem : ∀ c ∈ pyStrip (collapseRuns ' '
        (collapseRuns '_' (filename.map (fun c => if c ∈ safeChars then c else '_')))),
      c ∈ safeChars :=
    fun c hc => h2mem c (hinf.sublist.subset hc)
  have h3ndu : hasDoubled '_' (pyStrip (collapseRuns ' '
      (collapseRuns '_' (filename.map (fun c => if c ∈ safeChars then c else '_'))))) = false := by
    by_contra hne
    have htrue : hasDoubled '_' (pyStrip (collapseRuns ' '
        (collapseRuns '_' (filename.map (fun c => if c ∈ safeChars then c else '_'))))) = true := by
      revert hne
      cases hasDoubled '_' (pyStrip (collapseRuns ' '
        (collapseRuns '_' (filename.map (fun c => if c ∈ safeChars then c else '_'))))) <;> simp
    have := hasDoubled_of_infix '_' hinf htrue
    rw [h2ndu] at this
    exact Bool.false_ne_true this
  have h3nds : hasDoubled ' ' (pyStrip (collapseRuns ' '
      (collapseRuns '_' (filename.map (fun c => if c ∈ safeChars then c else '_'))))) = false := by
    by_contra hne
    have htrue : hasDoubled ' ' (pyStrip (collapseRuns ' '
        (collapseRuns '_' (filename.map (fun c => if c ∈ safeChars then c else '_'))))) = true := by
      revert hne
      cases hasDoubled ' ' (pyStrip (collapseRuns ' '
        (collapseRuns '_' (filename.map (fun c => if c ∈ safeChars then c else '_'))))) <;> simp
    have := hasDoubled_of_infix ' ' hinf htrue
    rw [h2nds] at this
    exact Bool.false_ne_true this
  have hr : generate_safe_filename filename =
      if pyStrip (collapseRuns ' '
          (collapseRuns '_' (filename.map (fun c => if c ∈ safeChars then c else '_')))) = []
      then "unnamed_file".data
      else pyStrip (collapseRuns ' '
          (collapseRuns '_' (filename.map (fun c => if c ∈ safeChars then c else '_')))) := rfl
  rw [hr]
  by_cases hempty : pyStrip (collapseRuns ' '
      (collapseRuns '_' (filename.map (fun c => if c ∈ safeChars then c else '_')))) = []
  · rw [if_pos hempty]
    refine ⟨by decide, by decide, by decide, by decide, by decide, by decide, ?_⟩
    intro fs mx h hmem
    have := hdisp fs mx h hmem
    rw [hr, if_pos hempty] at this
    exact this
  · rw [if_neg hempty]
    refine ⟨hempty, h3mem, h3ndu, h3nds, ?_, ?_, ?_⟩
    · exact fun c hc => pyStrip_head _ c hc
    · exact fun c hc => pyStrip_getLast _ c hc
    · intro fs mx h hmem
      have := hdisp fs mx h hmem
      rw [hr, if_neg hempty] at this
      exact this

/-- Witness for C10 at a concrete messy filename. -/
theorem c10_witness : generate_safe_filename "  my__file??.mp4  ".data ≠ [] :=
  (c10_safe_filename "  my__file??.mp4  ".data).1

/-- The range-request streaming loop, from any reachable loop state, emits
exactly the still-owed part of the requested byte range.  The producer's
remaining chunks concatenate to the remaining file content; `currentPos`
bytes were already consumed, of which `currentPos - start` were forwarded. -/
theorem rangeLoop_spec (start endPos : Nat) (hse : start ≤ endPos) :
    ∀ (chunks : List (List Nat)) (currentPos : Nat), currentPos ≤ endPos →
      rangeLoop start endPos (endPos + 1 - start) chunks currentPos (currentPos - start) =
        ((chunks.flatten).drop (start - currentPos)).take (endPos + 1 - max currentPos start) := by
  intro chunks
  induction chunks with
  | nil =>
    intro cp hcp
    simp [rangeLoop]
  | cons chunk rest ih =>
    intro cp hcp
    rw [rangeLoop]
    by_cases h1 : cp + chunk.length ≤ start
    · -- the chunk lies entirely before the range: skipped
      rw [if_pos h1]
      rw [show cp - start = cp + chunk.length - start from by omega]
      rw [ih (cp + chunk.length) (by omega)]
      rw [List.flatten_cons, List.drop_append_eq_append_drop,
        List.drop_eq_nil_of_le (by omega : chunk.length ≤ start - cp), List.nil_append]
      rw [show start - cp - chunk.length = start - (cp + chunk.length) from by omega]
      rw [Nat.max_eq_right (by omega : cp + chunk.length ≤ start),
        Nat.max_eq_right (by omega : cp ≤ start)]
    · rw [if_neg h1]
      rw [if_neg (by omega : ¬endPos < cp)]
      by_cases hL : chunk.length = 0
      · -- an empty chunk: nothing to trim, nothing consumed
        have hchunk : chunk = [] := List.length_eq_zero.1 hL
        subst hchunk
        rw [if_neg (by simp)]
        simpa using ih cp hcp
      · have hlt : start - cp < min chunk.length (endPos - cp + 1) := by omega
        rw [if_pos hlt]
        have hdlen : ((chunk.drop (start - cp)).take
            (min chunk.length (endPos - cp + 1) - (start - cp))).length =
            min chunk.length (endPos - cp + 1) - (start - cp) := by
          rw [List.length_take, List.length_drop]
          omega
        by_cases hbreak : endPos + 1 ≤ cp + chunk.length
        · -- this chunk reaches the end of the range: emit and stop
          rw [if_pos (by rw [hdlen]; omega)]
          rw [List.flatten_cons, List.drop_append_eq_append_drop,
            List.take_append_eq_append_take]
          rw [show endPos + 1 - max cp start - (chunk.drop (start - cp)).length = 0 from by
            rw [List.length_drop]; omega]
          rw [List.take_zero, List.append_nil]
          congr 1
          omega
        · -- the chunk is consumed whole; the loop continues
          rw [if_neg (by rw [hdlen]; omega)]
          rw [show cp - start + ((chunk.drop (start - cp)).take
              (min chunk.length (endPos - cp + 1) - (start - cp))).length =
              cp + chunk.length - start from by rw [hdlen]; omega]
          rw [ih (cp + chunk.length) (by omega)]
          rw [List.flatten_cons, List.drop_append_eq_append_drop,
            List.take_append_eq_append_take]
          rw [List.length_drop]
          rw [show min chunk.length (endPos - cp + 1) - (start - cp) =
              chunk.length - (start - cp) from by omega]
          rw [show start - (cp + chunk.length) = start - cp - chunk.length from by omega]
          rw [show max (cp + chunk.length) start = cp + chunk.length from by omega]
          rw [show endPos + 1 - max cp start - (chunk.length - (start - cp)) =
              endPos + 1 - (cp + chunk.length) from by omega]
          rw [List.take_of_length_le
              (by rw [List.length_drop] : (chunk.drop (start - cp)).length ≤
                chunk.length - (start - cp))]
          rw [List.take_of_length_le
              (by rw [List.length_drop]; omega : (chunk.drop (start - cp)).length ≤
                endPos + 1 - max cp start)]

/-- Claim C1: for every valid byte range `0 ≤ start ≤ end < totalSize` and
every chunking of the file yielded sequentially from offset 0, the range
loop writes exactly the bytes `file[start..end]` (end inclusive), in file
order, totalling `end - start + 1` bytes. -/
theorem c1_range_stream_exact (file : List Nat) (chunks : List (List Nat))
    (start endPos : Nat) (hjoin : chunks.flatten = file) (hse : start ≤ endPos)
    (hend : endPos < file.length) :
    rangeStreamBody start endPos chunks = (file.drop start).take (endPos - start + 1) ∧
    (rangeStreamBody start endPos chunks).length = endPos - start + 1 := by
  have heq := rangeLoop_spec start endPos hse chunks 0 (Nat.zero_le _)
  rw [Nat.zero_sub, Nat.sub_zero, Nat.max_eq_right (Nat.zero_le start), hjoin] at heq
  unfold rangeStreamBody
  rw [show endPos - start + 1 = endPos + 1 - start from by omega]
  refine ⟨heq, ?_⟩
  rw [heq, List.length_take, List.length_drop]
  omega

/-- Witness for C1: the range `bytes=2-7` of a 10-byte file delivered in
chunks of 3, 3 and 4 bytes. -/
theorem c1_witness :
    ([[0, 1, 2], [3, 4, 5], [6, 7, 8, 9]] : List (List Nat)).flatten =
      [0, 1, 2, 3, 4, 5, 6, 7, 8, 9] ∧
    (2 : Nat) ≤ 7 ∧ 7 < ([0, 1, 2, 3, 4, 5, 6, 7, 8, 9] : List Nat).length ∧
    (rangeStreamBody 2 7 [[0, 1, 2], [3, 4, 5], [6, 7, 8, 9]] =
      (([0, 1, 2, 3, 4, 5, 6, 7, 8, 9] : List Nat).drop 2).take (7 - 2 + 1) ∧
     (rangeStreamBody 2 7 [[0, 1, 2], [3, 4, 5], [6, 7, 8, 9]]).length = 7 - 2 + 1) :=
  ⟨by decide, by decide, by decide,
   c1_range_stream_exact [0, 1, 2, 3, 4, 5, 6, 7, 8, 9] [[0, 1, 2], [3, 4, 5], [6, 7, 8, 9]]
     2 7 (by decide) (by decide) (by decide)⟩

/-- XOR with the repeating key is an involution, position by position. -/
theorem xorBytesFrom_xorBytesFrom (key : List Nat) :
    ∀ (data : List Nat) (i : Nat), xorBytesFrom key i (xorBytesFrom key i data) = data := by
  intro data
  induction data with
  | nil => intro i; rfl
  | cons b rest ih =>
    intro i
    rw [xorBytesFrom, xorBytesFrom]
    rw [Nat.xor_assoc, Nat.xor_self, Nat.xor_zero]
    rw [ih (i + 1)]

/-- `xorBytes` undoes itself: decryption inverts encryption. -/
theorem xorBytes_xorBytes (data key : List Nat) :
    xorBytes (xorBytes data key) key = data :=
  xorBytesFrom_xorBytesFrom key data 0

/-- XOR keeps the length. -/
theorem length_xorBytesFrom (key : List Nat) :
    ∀ (data : List Nat) (i : Nat), (xorBytesFrom key i data).length = data.length := by
  intro data
  induction data with
  | nil => intro i; rfl
  | cons b rest ih => intro i; rw [xorBytesFrom]; simp [ih]

/-- XOR of bytes with key bytes yields bytes. -/
theorem xorBytesFrom_lt (key : List Nat) (hkb : ∀ k ∈ key, k < 256) :
    ∀ (data : List Nat) (i : Nat), (∀ b ∈ data, b < 256) →
      ∀ c ∈ xorBytesFrom key i data, c < 256 := by
  have hget : ∀ j, key.getD j 0 < 256 := by
    intro j
    rcases Nat.lt_or_ge j key.length with hj | hj
    · rw [List.getD_eq_getElem _ _ hj]
      exact hkb _ (List.getElem_mem hj)
    · rw [List.getD_eq_default _ _ hj]
      omega
  intro data
  induction data with
  | nil => intro i h c hc; simp [xorBytesFrom] at hc
  | cons b rest ih =>
    intro i h c hc
    rw [xorBytesFrom] at hc
    rcases List.mem_cons.1 hc with h1 | h1
    · subst h1
      have h256 : (256 : Nat) = 2 ^ 8 := by norm_num
      refine h256 ▸ Nat.xor_lt_two_pow ?_ ?_
      · exact h256 ▸ h b (List.mem_cons_self b rest)
      · exact h256 ▸ hget (i % key.length)
    · exact ih (i + 1) (fun x hx => h x (List.mem_cons_of_mem b hx)) c h1

/-- Sextets of byte data are 6-bit values. -/
theorem b64EncodeSextets_lt :
    ∀ bs : List Nat, (∀ b ∈ bs, b < 256) → ∀ s ∈ b64EncodeSextets bs, s < 64
  | [] => by intro _ s hs; simp [b64EncodeSextets] at hs
  | [b1] => by
    intro h s hs
    have hb1 : b1 < 256 := h b1 (by simp)
    rw [b64EncodeSextets] at hs
    simp only [List.mem_cons, List.not_mem_nil, or_false] at hs
    rcases hs with h1 | h1 <;> omega
  | [b1, b2] => by
    intro h s hs
    have hb1 : b1 < 256 := h b1 (by simp)
    have hb2 : b2 < 256 := h b2 (by simp)
    rw [b64EncodeSextets] at hs
    simp only [List.mem_cons, List.not_mem_nil, or_false] at hs
    rcases hs with h1 | h1 | h1 <;> omega
  | b1 :: b2 :: b3 :: rest => by
    intro h s hs
    have hb1 : b1 < 256 := h b1 (by simp)
    have hb2 : b2 < 256 := h b2 (by simp)
    have hb3 : b3 < 256 := h b3 (by simp)
    rw [b64EncodeSextets] at hs
    simp only [List.mem_cons] at hs
    rcases hs with h1 | h1 | h1 | h1 | h1
    · omega
    · omega
    · omega
    · omega
    · exact b64EncodeSextets_lt rest
        (fun x hx => h x (by simp [hx])) s h1

/-- Decoding the sextet encoding of byte data restores the bytes. -/
theorem b64DecodeBytes_encodeSextets :
    ∀ bs : List Nat, (∀ b ∈ bs, b < 256) →
      b64DecodeBytes (b64EncodeSextets bs) = some bs
  | [] => by intro _; rfl
  | [b1] => by
    intro h
    have hb1 : b1 < 256 := h b1 (by simp)
    rw [b64EncodeSextets, b64DecodeBytes]
    congr 2
    omega
  | [b1, b2] => by
    intro h
    have hb1 : b1 < 256 := h b1 (by simp)
    have hb2 : b2 < 256 := h b2 (by simp)
    rw [b64EncodeSextets, b64DecodeBytes]
    congr 3
    · omega
    · omega
  | b1 :: b2 :: b3 :: rest => by
    intro h
    have hb1 : b1 < 256 := h b1 (by simp)
    have hb2 : b2 < 256 := h b2 (by simp)
    have hb3 : b3 < 256 := h b3 (by simp)
    have ih := b64DecodeBytes_encodeSextets rest (fun x hx => h x (by simp [hx]))
    rw [b64EncodeSextets, b64DecodeBytes, ih]
    rw [Option.map_some']
    congr 4
    · omega
    · omega
    · omega

/-- Decoding a sextet character restores the sextet. -/
theorem charToSextet_sextetToChar : ∀ v : Nat, v < 64 →
    charToSextet (sextetToChar v) = some v := by
  decide

/-- Sextet characters are never the padding character. -/
theorem sextetToChar_ne_eq : ∀ v : Nat, v < 64 → sextetToChar v ≠ '=' := by
  decide

/-- Mapping sextets to characters and filtering back through the decoder is
the identity on 6-bit values. -/
theorem filterMap_map_sextetToChar :
    ∀ l : List Nat, (∀ v ∈ l, v < 64) →
      (l.map sextetToChar).filterMap charToSextet = l := by
  intro l
  induction l with
  | nil => intro _; rfl
  | cons v rest ih =>
    intro h
    rw [List.map_cons, List.filterMap_cons,
      charToSextet_sextetToChar v (h v (List.mem_cons_self v rest))]
    rw [ih (fun x hx => h x (List.mem_cons_of_mem v hx))]

/-- The padding character decodes to nothing, so appended padding is
invisible to the decoder. -/
theorem filterMap_append_replicate_eq (s : List Char) (k : Nat) :
    (s ++ List.replicate k '=').filterMap charToSextet = s.filterMap charToSextet := by
  rw [List.filterMap_append]
  have : (List.replicate k '=').filterMap charToSextet = [] := by
    induction k with
    | zero => rfl
    | succ n ih =>
      rw [List.replicate_succ, List.filterMap_cons]
      have h : charToSextet '=' = none := by decide
      rw [h, ih]
  rw [this, List.append_nil]

/-- Dropping a leading block of `c`s skips it entirely. -/
theorem dropWhile_replicate_append (c : Char) (l : List Char) :
    ∀ k : Nat, (List.replicate k c ++ l).dropWhile (fun x => x = c) =
      l.dropWhile (fun x => x = c) := by
  intro k
  induction k with
  | zero => rfl
  | succ n ih =>
    rw [List.replicate_succ, List.cons_append, List.dropWhile_cons_of_pos (by simp)]
    exact ih

/-- `dropWhile` is the identity when no element satisfies the predicate. -/
theorem dropWhile_of_all_false (p : Char → Bool) :
    ∀ l : List Char, (∀ x ∈ l, p x = false) → l.dropWhile p = l := by
  intro l
  induction l with
  | nil => intro _; rfl
  | cons x t _ =>
    intro h
    exact List.dropWhile_cons_of_neg (by simp [h x (List.mem_cons_self x t)])

/-- Stripping the trailing padding block recovers the padding-free part. -/
theorem pyRstrip_append_replicate (c : Char) (l : List Char) (k : Nat)
    (h : ∀ x ∈ l, x ≠ c) : pyRstrip c (l ++ List.replicate k c) = l := by
  unfold pyRstrip
  rw [List.reverse_append, List.reverse_replicate, dropWhile_replicate_append]
  rw [dropWhile_of_all_false _ l.reverse
    (fun x hx => by simpa using h x (List.mem_reverse.1 hx))]
  exact List.reverse_reverse l

/-- The codec round trip: under any byte key, decrypting the encryption of a
nonempty ASCII identifier restores it exactly. -/
theorem decrypt_encrypt (key : List Nat) (plain : List Char)
    (hkb : ∀ k ∈ key, k < 256) (hascii : ∀ c ∈ plain, c.toNat < 128)
    (hne : plain ≠ []) :
    decrypt_id key (encrypt_id key plain) = some plain := by
  have hidb : ∀ b ∈ plain.map Char.toNat, b < 256 := by
    intro b hb
    rcases List.mem_map.1 hb with ⟨c, hc, hcb⟩
    have := hascii c hc
    omega
  have hxor : ∀ b ∈ xorBytes (plain.map Char.toNat) key, b < 256 :=
    xorBytesFrom_lt key hkb _ 0 hidb
  have hfinal : ∀ b ∈ 1 :: xorBytes (plain.map Char.toNat) key, b < 256 := by
    intro b hb
    rcases List.mem_cons.1 hb with h | h
    · omega
    · exact hxor b h
  have hsx : ∀ s ∈ b64EncodeSextets (1 :: xorBytes (plain.map Char.toNat) key), s < 64 :=
    b64EncodeSextets_lt _ hfinal
  have henc : encrypt_id key plain =
      (b64EncodeSextets (1 :: xorBytes (plain.map Char.toNat) key)).map sextetToChar := by
    unfold encrypt_id b64encode
    exact pyRstrip_append_replicate '=' _ _ (by
      intro x hx
      rcases List.mem_map.1 hx with ⟨v, hv, hvx⟩
      exact hvx ▸ sextetToChar_ne_eq v (hsx v hv))
  have hdec : ∀ token : List Char,
      token.filterMap charToSextet =
        b64EncodeSextets (1 :: xorBytes (plain.map Char.toNat) key) →
      b64decode (if token.length % 4 = 0 then token
        else token ++ List.replicate (4 - token.length % 4) '=') =
        some (1 :: xorBytes (plain.map Char.toNat) key) := by
    intro token htok
    unfold b64decode
    have hfm : (if token.length % 4 = 0 then token
        else token ++ List.replicate (4 - token.length % 4) '=').filterMap charToSextet =
        token.filterMap charToSextet := by
      split
      · rfl
      · exact filterMap_append_replicate_eq token _
    rw [hfm, htok, b64DecodeBytes_encodeSextets _ hfinal]
  have hlenxor : (xorBytes (plain.map Char.toNat) key).length = plain.length := by
    unfold xorBytes
    rw [length_xorBytesFrom, List.length_map]
  have hplen : 0 < plain.length := List.length_pos.2 hne
  rw [henc]
  unfold decrypt_id
  rw [hdec _ (filterMap_map_sextetToChar _ hsx)]
  dsimp only
  rw [if_neg (by
    simp only [List.length_cons, List.getD_cons_zero, not_or, not_lt]
    exact ⟨by omega, by simp⟩)]
  rw [List.drop_one, List.tail_cons, xorBytes_xorBytes]
  unfold asciiDecode?
  rw [if_pos (by
    rw [List.all_eq_true]
    intro b hb
    rcases List.mem_map.1 hb with ⟨c, hc, hcb⟩
    simpa [← hcb] using hascii c hc)]
  rw [List.map_map]
  congr 1
  have : ∀ c ∈ plain, (Char.ofNat ∘ Char.toNat) c = id c := by
    intro c _
    simp [Char.ofNat_toNat]
  rw [List.map_congr_left this, List.map_id]

/-- Integer-literal strings are ASCII. -/
theorem isIntString_ascii (a : List Char) (h : isIntString a = true) :
    ∀ c ∈ a, c.toNat < 128 := by
  cases a with
  | nil => simp [isIntString] at h
  | cons x rest =>
    rw [isIntString] at h
    split at h
    · next hx =>
      subst hx
      simp only [Bool.and_eq_true, List.all_eq_true, decide_eq_true_eq] at h
      intro c hc
      rcases List.mem_cons.1 hc with h1 | h1
      · subst h1; decide
      · have := h.2 c h1
        omega
    · simp only [List.all_eq_true, decide_eq_true_eq] at h
      intro c hc
      have := h c hc
      omega

/-- A legacy-form identifier is a nonempty ASCII string. -/
theorem legacyIdForm_ascii (s : List Char) (h : LegacyIdForm s) :
    (∀ c ∈ s, c.toNat < 128) ∧ s ≠ [] := by
  obtain ⟨a, b, hs, ha, hb⟩ := h
  subst hs
  constructor
  · intro c hc
    rcases List.mem_append.1 hc with h1 | h1
    · exact isIntString_ascii a ha c h1
    · rcases List.mem_cons.1 h1 with h2 | h2
      · subst h2; decide
      · exact isIntString_ascii b hb c h2
  · simp

/-- Claim C3: for every valid `FileReference` — every plain identifier of the
form `"containerId_itemId"` — decoding the token produced by encoding it
restores the identifier: `decrypt_id key (encrypt_id key s) = some s` under
the fixed server key (any 32-byte SHA-256 digest; only its byte range is
used). -/
theorem c3_roundtrip (key : List Nat) (plain : List Char)
    (hkb : ∀ k ∈ key, k < 256) (hform : LegacyIdForm plain) :
    decrypt_id key (encrypt_id key plain) = some plain :=
  decrypt_encrypt key plain hkb (legacyIdForm_ascii plain hform).1
    (legacyIdForm_ascii plain hform).2

/-- Witness for C3: the reference `"123_456"` under a concrete 32-byte key. -/
theorem c3_witness :
    (∀ k ∈ List.replicate 32 7, k < 256) ∧ LegacyIdForm "123_456".data ∧
    decrypt_id (List.replicate 32 7) (encrypt_id (List.replicate 32 7) "123_456".data) =
      some "123_456".data :=
  ⟨by decide, ⟨"123".data, "456".data, by decide, by decide, by decide⟩,
   c3_roundtrip (List.replicate 32 7) "123_456".data (by decide)
     ⟨"123".data, "456".data, by decide, by decide, by decide⟩⟩

/-- Claim C4 counterexample: not every string outside `encode`'s image
decodes to `none`.  Under the all-zero key, the token built by the same
pipeline from the non-reference string `"hello"` is not `encrypt_id` of any
valid `FileReference` (decoding is deterministic, and `"hello"` contains no
underscore), yet `decrypt_id` returns a value for it. -/
theorem c4_counterexample :
    decrypt_id (List.replicate 32 0) (encrypt_id (List.replicate 32 0) "hello".data) ≠ none ∧
    ∀ r : List Char, LegacyIdForm r →
      encrypt_id (List.replicate 32 0) r ≠
        encrypt_id (List.replicate 32 0) "hello".data := by
  have hkb : ∀ k ∈ List.replicate 32 0, k < 256 := by decide
  have hhello : decrypt_id (List.replicate 32 0)
      (encrypt_id (List.replicate 32 0) "hello".data) = some "hello".data :=
    decrypt_encrypt _ _ hkb (by decide) (by decide)
  constructor
  · rw [hhello]
    simp
  · intro r hr heq
    have hr2 := decrypt_encrypt (List.replicate 32 0) r hkb
      (legacyIdForm_ascii r hr).1 (legacyIdForm_ascii r hr).2
    rw [heq, hhello] at hr2
    have hrh : r = "hello".data := (Option.some_inj.1 hr2).symm
    subst hrh
    obtain ⟨a, b, hab, _, _⟩ := hr
    have hmem : '_' ∈ "hello".data := by
      rw [hab]
      exact List.mem_append_right a (List.mem_cons_self '_' b)
    revert hmem
    decide

/-- Claim C4 amended: `decrypt_id` is total (never throws — every internal
failure is caught and mapped to `none`), and it returns `none` whenever the
input carries at most two base64-alphabet characters: this covers the empty
string, strings made only of non-base64 characters, and minimal valid
base64 whose decoded payload is shorter than the required two bytes.  (The
counterexample shows the original universal claim — `none` on *every*
input outside `encode`'s image — is false.) -/
theorem c4_garbage_none (key : List Nat) (s : List Char)
    (h : (s.filterMap charToSextet).length ≤ 2) : decrypt_id key s = none := by
  unfold decrypt_id b64decode
  have hfm : (if s.length % 4 = 0 then s
      else s ++ List.replicate (4 - s.length % 4) '=').filterMap charToSextet =
      s.filterMap charToSextet := by
    split
    · rfl
    · exact filterMap_append_replicate_eq s _
  rw [hfm]
  rcases hsx : s.filterMap charToSextet with _ | ⟨a, _ | ⟨b, _ | ⟨c, t⟩⟩⟩
  · rw [b64DecodeBytes]
    dsimp only
    rw [if_pos (by simp)]
  · rw [b64DecodeBytes]
  · rw [b64DecodeBytes]
    dsimp only
    rw [if_pos (by simp)]
  · rw [hsx] at h
    simp at h

/-- Witness for the amended C4: a string of non-base64 characters decodes to
`none` under the empty key. -/
theorem c4_witness :
    (("!?".data.filterMap charToSextet).length ≤ 2) ∧
    decrypt_id [] "!?".data = none :=
  ⟨by decide, c4_garbage_none [] "!?".data (by decide)⟩
